import Mathlib

/-!
Verification of the `uint256` crate (src/src/uint256.rs) against its
natural-language specification.

The embedding models the Rust code at the level of mathematical integers:
a `u128` limb is a `Nat` that is kept below `2 ^ 128` by explicit wrapping
(`% 2 ^ 128`) exactly where the Rust semantics wraps.  The crate is compiled
with overflow checks on (its own test-suite expects panics such as
"attempt to multiply with overflow"), so every Rust operation that can
panic — checked `+`/`*`, shifts by an amount not below the bit width,
`unwrap`, `panic!`, failed slice indexing — is modelled as an
`Option`-valued function where `none` means "the operation panics".
Total (never-panicking) operations are plain functions.
-/

set_option maxRecDepth 100000

namespace USpec

/-- Endianness tag, from `enum Endian` in the source. -/
inductive Endian where
  | little
  | big
deriving DecidableEq, Repr

/-- The 256-bit value: two 128-bit limbs and the carried endianness tag,
from `struct UInt256 { high: u128, low: u128, endian: Endian }`. -/
structure UInt256 where
  high : ℕ
  low : ℕ
  endian : Endian
deriving DecidableEq, Repr

/-- The modulus of one `u128` limb. -/
def limbSize : ℕ := 2 ^ 128

/-- The value of `u128::MAX`. -/
def U128MAX : ℕ := 2 ^ 128 - 1

/-- Rust `u128::overflowing_add`: wrapped sum and the carry flag. -/
def overflowingAdd (a b : ℕ) : ℕ × Bool :=
  ((a + b) % limbSize, decide (limbSize ≤ a + b))

/-- Rust `u128::overflowing_sub`: wrapped difference and the borrow flag
(faithful for operands below `2 ^ 128`). -/
def overflowingSub (a b : ℕ) : ℕ × Bool :=
  ((a + limbSize - b) % limbSize, decide (a < b))

namespace UInt256

/-- Source `UInt256::ZERO`. -/
def ZERO : UInt256 := ⟨0, 0, .big⟩

/-- Source `UInt256::ONE`. -/
def ONE : UInt256 := ⟨0, 1, .big⟩

/-- Source `UInt256::MAX`. -/
def MAX : UInt256 := ⟨U128MAX, U128MAX, .big⟩

/-- The mathematical value `high * 2^128 + low` denoted by a `UInt256`
(specification-side abstraction used to state the claims). -/
def value (a : UInt256) : ℕ := a.high * limbSize + a.low

/-- Source `UInt256::is_zero`. -/
def isZero (a : UInt256) : Bool := a.high == 0 && a.low == 0

/-- Source `impl Ord for UInt256::cmp`: compare `high`, then `low`; the endian tag
is ignored. -/
def ucmp (a b : UInt256) : Ordering :=
  match compare a.high b.high with
  | .eq => compare a.low b.low
  | o => o

/-- The `<` of `PartialOrd`, derived from `cmp`. -/
def ult (a b : UInt256) : Bool :=
  match ucmp a b with
  | .lt => true
  | _ => false

/-- The `>=` of `PartialOrd`, derived from `cmp` (`Greater` or `Equal`,
i.e. not `Less`). -/
def uge (a b : UInt256) : Bool := !(ult a b)

/-- Source `impl Add for UInt256::add`.  Panics (`none`) on the two documented
"addition overflow" conditions.  Note the carry branch of the source
returns `low: self.low`, not the wrapped low sum. -/
def add (a b : UInt256) : Option UInt256 :=
  let lc := overflowingAdd a.low b.low
  if lc.2 then
    let hc := overflowingAdd a.high b.high
    if hc.2 then none
    else if hc.1 = U128MAX then none
    else some ⟨hc.1 + 1, a.low, a.endian⟩
  else
    some ⟨a.high, lc.1, a.endian⟩

/-- Source `impl Sub for UInt256::sub`.  Panics (`none`) when `self < rhs`, and
defensively on a borrow out of `high`.  Note the borrow branch of the
source returns `low: self.low`, not the wrapped low difference. -/
def sub (a b : UInt256) : Option UInt256 :=
  if ult a b then none
  else
    let lb := overflowingSub a.low b.low
    if lb.2 then
      let hb := overflowingSub a.high b.high
      if hb.2 then none
      else some ⟨hb.1 - 1, a.low, a.endian⟩
    else
      some ⟨a.high, lb.1, a.endian⟩

/-- Rust checked `u128 * u128` under overflow checks: panics (`none`) when
the product does not fit in 128 bits. -/
def checkedMul128 (a b : ℕ) : Option ℕ :=
  if a * b < limbSize then some (a * b) else none

/-- Rust checked `u128 + u128` under overflow checks. -/
def checkedAdd128 (a b : ℕ) : Option ℕ :=
  if a + b < limbSize then some (a + b) else none

/-- Source `impl Mul for UInt256::mul`: the four cross partial products, each a
plain (checked) `u128` multiplication, combined with 64-bit shifts.
`x << 64` on `u128` never panics but drops the upper bits
(`% 2 ^ 128`); each `+` in the `high` combination is checked. -/
def mul (a b : UInt256) : Option UInt256 := do
  let lowLow ← checkedMul128 a.low b.low
  let lowHigh ← checkedMul128 a.low b.high
  let highLow ← checkedMul128 a.high b.low
  let highHigh ← checkedMul128 a.high b.high
  let s1 := overflowingAdd lowLow ((lowHigh <<< 64) % limbSize)
  let s2 := overflowingAdd s1.1 ((highLow <<< 64) % limbSize)
  let h1 ← checkedAdd128 highHigh (lowHigh >>> 64)
  let h2 ← checkedAdd128 h1 (highLow >>> 64)
  let h3 ← checkedAdd128 h2 (if s1.2 then 1 else 0)
  let high ← checkedAdd128 h3 (if s2.2 then 1 else 0)
  some ⟨high, s2.1, a.endian⟩

/-- Rust `u128 >> n` under overflow checks: panics (`none`) when the shift
amount reaches the bit width. -/
def shr128 (x n : ℕ) : Option ℕ :=
  if n < 128 then some (x >>> n) else none

/-- Rust `u128 << n` under overflow checks: panics (`none`) when the shift
amount reaches the bit width; otherwise the shifted-out bits are dropped. -/
def shl128 (x n : ℕ) : Option ℕ :=
  if n < 128 then some ((x <<< n) % limbSize) else none

/-- Source `impl Shr for UInt256::shr`.  The source tests `shift >= 128` first,
so its `shift >= 256` arm is unreachable and a shift amount of at least
256 reaches `self.high >> (shift - 128)` with an amount of at least 128;
a shift amount of exactly 0 reaches `self.high << (128 - shift)` with an
amount of 128. -/
def shr (a : UInt256) (shift : ℕ) : Option UInt256 :=
  if 128 ≤ shift then
    (shr128 a.high (shift - 128)).map fun l => ⟨0, l, a.endian⟩
  else if 256 ≤ shift then
    some ZERO
  else do
    let h ← shr128 a.high shift
    let x ← shl128 a.high (128 - shift)
    let y ← shr128 a.low shift
    some ⟨h, x ||| y, a.endian⟩

/-- Source `impl Shl for UInt256::shl`.  Same unreachable `shift >= 256` arm and
the same two edge conditions as `shr`, mirrored. -/
def shl (a : UInt256) (shift : ℕ) : Option UInt256 :=
  if 128 ≤ shift then
    (shl128 a.low (shift - 128)).map fun h => ⟨h, 0, a.endian⟩
  else if 256 ≤ shift then
    some ZERO
  else do
    let x ← shl128 a.high shift
    let y ← shr128 a.low (128 - shift)
    let l ← shl128 a.low shift
    some ⟨x ||| y, l, a.endian⟩

/-- Source `impl BitOr for UInt256::bitor`: limb-wise or, endian tag taken from
the left operand. -/
def bitor (a b : UInt256) : UInt256 :=
  ⟨a.high ||| b.high, a.low ||| b.low, a.endian⟩

/-- Source `UInt256::bit_at`: asserts `index < 256` (`none` on violation). -/
def bitAt (a : UInt256) (index : ℕ) : Option Bool :=
  if index < 256 then
    if index < 128 then some (decide (a.low &&& (1 <<< index) ≠ 0))
    else some (decide (a.high &&& (1 <<< (index - 128)) ≠ 0))
  else none

/-- Source `UInt256::set_bit`: asserts `index < 256` (`none` on violation). -/
def setBit (a : UInt256) (index : ℕ) : Option UInt256 :=
  if index < 256 then
    if index < 128 then some { a with low := a.low ||| (1 <<< index) }
    else some { a with high := a.high ||| (1 <<< (index - 128)) }
  else none

/-- Source `UInt256::as_bytes`: big-endian serialization, `high` into the first
16 bytes, `low` into the last 16, independent of the endian tag. -/
def asBytes (a : UInt256) : List ℕ :=
  ((List.range 16).map fun i => (a.high >>> (8 * (15 - i))) &&& 0xff) ++
  ((List.range 16).map fun i => (a.low >>> (8 * (15 - i))) &&& 0xff)

/-- Source `UInt256::to_be_bytes`, which just calls `as_bytes`. -/
def toBeBytes (a : UInt256) : List ℕ := a.asBytes

/-- Source `UInt256::to_le_bytes`: little-endian serialization, `low` first,
independent of the endian tag. -/
def toLeBytes (a : UInt256) : List ℕ :=
  (List.range 32).map fun i =>
    if i < 16 then (a.low >>> (i * 8)) &&& 0xff
    else (a.high >>> ((i - 16) * 8)) &&& 0xff

/-- Source `UInt256::from_le_bytes`: enumerate the bytes, the first 16 into
`low`, the rest into `high`; the result is tagged `Little`. -/
def fromLeBytes (bytes : List ℕ) : UInt256 :=
  let st := bytes.enum.foldl
    (fun (st : ℕ × ℕ) p =>
      if p.1 < 16 then (st.1 ||| (p.2 <<< (p.1 * 8)), st.2)
      else (st.1, st.2 ||| (p.2 <<< ((p.1 - 16) * 8))))
    (0, 0)
  ⟨st.2, st.1, .little⟩

/-- Source `UInt256::from_be_bytes`: enumerate the reversed bytes, the first 16
(least significant) into `low`, the next 16 into `high`; the result is
tagged `Big`. -/
def fromBeBytes (bytes : List ℕ) : UInt256 :=
  let st := bytes.reverse.enum.foldl
    (fun (st : ℕ × ℕ) p =>
      if p.1 < 16 then (st.1 ||| (p.2 <<< (p.1 * 8)), st.2)
      else if p.1 < 32 then (st.1, st.2 ||| (p.2 <<< ((p.1 - 16) * 8)))
      else st)
    (0, 0)
  ⟨st.2, st.1, .big⟩

end UInt256

/-- Source `utils::pad_bytes`: copy at most 32 bytes of `data` into a 32-byte
buffer pre-filled with `w`; `Big` right-aligns the data, `Little`
left-aligns it. -/
def padBytes (data : List ℕ) (w : ℕ) (e : Endian) : List ℕ :=
  let len := min data.length 32
  match e with
  | .big => List.replicate (32 - len) w ++ data.take len
  | .little => data.take len ++ List.replicate (32 - len) w

/-- Source `utils::to_uint256`: dispatch on the endianness. -/
def toUint256 (bytes : List ℕ) (e : Endian) : UInt256 :=
  match e with
  | .little => UInt256.fromLeBytes bytes
  | .big => UInt256.fromBeBytes bytes

/-- Source `struct UInt256Builder`: a staged 32-byte buffer with optional
declared endianness and padding byte. -/
structure UInt256Builder where
  bytes : List ℕ
  endian : Option Endian
  padding : Option ℕ
deriving DecidableEq, Repr

namespace UInt256Builder

/-- Source `UInt256Builder::new`: zero buffer, nothing declared. -/
def new : UInt256Builder := ⟨List.replicate 32 0, none, none⟩

/-- Source `UInt256Builder::with_padding`. -/
def withPadding (b : UInt256Builder) (p : ℕ) : UInt256Builder :=
  { b with padding := some p }

/-- Source `UInt256Builder::with_endian`. -/
def withEndian (b : UInt256Builder) (e : Endian) : UInt256Builder :=
  { b with endian := some e }

/-- Source `UInt256Builder::from_partial_bytes`.  The source panics when
`!self.padding.is_none()` — that is, when padding HAS been declared —
and also when endianness is missing; otherwise it pads with the
hard-coded fill byte `0x00` (not the declared one). -/
def fromPartialBytes (b : UInt256Builder) (bytes : List ℕ) :
    Option UInt256Builder :=
  if b.padding.isSome then none
  else if b.endian.isNone then none
  else
    match b.endian with
    | some e => some { b with bytes := padBytes bytes 0x00 e }
    | none => none

/-- Source `UInt256Builder::from_bytes`: panics when padding has been
declared; otherwise stores the 32 bytes verbatim. -/
def fromBytes (b : UInt256Builder) (bytes : List ℕ) : Option UInt256Builder :=
  if b.padding.isSome then none
  else some { b with bytes := bytes }

/-- Source `UInt256Builder::build`: `self.endian.unwrap()` panics when
endianness was never declared. -/
def build (b : UInt256Builder) : Option UInt256 :=
  match b.endian with
  | some e => some (toUint256 b.bytes e)
  | none => none

end UInt256Builder

/-- One iteration of the long-division loop in `divide`, at bit position
`i`: shift the remainder left by one, or in bit `i` of the dividend, and
when the remainder has reached the divisor subtract and set the quotient
bit. -/
def divideStep (dividend divisor : UInt256) (qr : UInt256 × UInt256) (i : ℕ) :
    Option (UInt256 × UInt256) := do
  let r1 ← qr.2.shl 1
  let b ← dividend.bitAt i
  let r2 : UInt256 := { r1 with low := r1.low ||| (if b then 1 else 0) }
  if r2.uge divisor then
    let r3 ← r2.sub divisor
    let q1 ← qr.1.setBit i
    some (q1, r3)
  else
    some (qr.1, r2)

/-- Source `divide`: quotient and remainder by restoring binary long division.
Panics (`none`) on a zero divisor; fast path when the dividend is below
the divisor; otherwise a fixed 256-iteration loop from bit 255 down to
bit 0. -/
def divide (dividend divisor : UInt256) : Option (UInt256 × UInt256) :=
  if divisor.isZero then none
  else if dividend.ult divisor then some (UInt256.ZERO, dividend)
  else
    (List.range 256).reverse.foldlM (divideStep dividend divisor)
      (UInt256.ZERO, UInt256.ZERO)

/-- Source `impl Div for UInt256::div`: the quotient of `divide`. -/
def UInt256.udiv (a b : UInt256) : Option UInt256 :=
  (divide a b).map Prod.fst

/-- Rust `str::trim`: drop leading and trailing whitespace.  Strings are
modelled as lists of characters (the relevant inputs are ASCII, where
Rust's byte indexing and character indexing agree). -/
def trimChars (s : List Char) : List Char :=
  ((s.dropWhile Char.isWhitespace).reverse.dropWhile Char.isWhitespace).reverse

/-- Rust `str::strip_prefix("0x")`: `none` when the string does not start
with the two characters `0x`. -/
def strip0x (s : List Char) : Option (List Char) :=
  match s with
  | '0' :: 'x' :: rest => some rest
  | _ => none

/-- Rust slicing `&s[..n]`: panics (`none`) when the string is shorter
than `n`. -/
def sliceTo (s : List Char) (n : ℕ) : Option (List Char) :=
  if n ≤ s.length then some (s.take n) else none

/-- Rust slicing `&s[n..]`: panics (`none`) when the string is shorter
than `n`. -/
def sliceFrom (s : List Char) (n : ℕ) : Option (List Char) :=
  if n ≤ s.length then some (s.drop n) else none

/-- Value of one hexadecimal digit character, `none` for a non-digit. -/
def hexDigitVal (c : Char) : Option ℕ :=
  if '0' ≤ c ∧ c ≤ '9' then some (c.toNat - '0'.toNat)
  else if 'a' ≤ c ∧ c ≤ 'f' then some (c.toNat - 'a'.toNat + 10)
  else if 'A' ≤ c ∧ c ≤ 'F' then some (c.toNat - 'A'.toNat + 10)
  else none

/-- Rust `u128::from_str_radix(s, 16)` as a recoverable parse: `none`
stands for `Err` (empty input, a non-digit character, or accumulated
overflow past `u128`); an optional leading `+` sign is accepted. -/
def u128FromHex (s : List Char) : Option ℕ :=
  let digits :=
    match s with
    | '+' :: rest => rest
    | _ => s
  if digits.isEmpty then none
  else
    digits.foldlM
      (fun acc c => do
        let d ← hexDigitVal c
        let v := acc * 16 + d
        if v < limbSize then some v else none)
      0

/-- Rust `u128::to_be_bytes` as a 16-byte list. -/
def u128ToBeBytes (v : ℕ) : List ℕ :=
  (List.range 16).map fun i => (v >>> (8 * (15 - i))) &&& 0xff

/-- Source `utils::BytesPair`: the low and high 16-byte halves. -/
structure BytesPair where
  low : List ℕ
  high : List ℕ
deriving DecidableEq, Repr

/-- Source `utils::hex_to_bytes_pair`.  The outer `none` is a panic: the source
calls `.unwrap()` on `strip_prefix("0x")` and on each
`u128::from_str_radix`, and slices `&a[..32]` / `&a[32..]` without a
length check, so a missing prefix, a short string, or a non-hex
character aborts instead of producing the declared `Err`.  The
`Except.error` channel (from `try_from` via `map_err`) is unreachable
because `u128::to_be_bytes` always yields exactly 16 bytes. -/
def hexToBytesPair (n : List Char) (e : Endian) :
    Option (Except String BytesPair) := do
  let a ← strip0x (trimChars n)
  match e with
  | .big => do
    let lowHex ← sliceTo a 32
    let highHex ← sliceFrom a 32
    let lowNum ← u128FromHex lowHex
    let highNum ← u128FromHex highHex
    some (Except.ok ⟨u128ToBeBytes lowNum, u128ToBeBytes highNum⟩)
  | .little => do
    let lowHex ← sliceFrom a 32
    let highHex ← sliceTo a 32
    let lowNum ← u128FromHex lowHex
    let highNum ← u128FromHex highHex
    some (Except.ok ⟨(u128ToBeBytes lowNum).reverse,
      (u128ToBeBytes highNum).reverse⟩)

/-- Source `UInt256::from_str_radix` at radix 16: recoverable errors for a
length other than 64 and for invalid digits.  (The `Little` arm of the
source also computes `n.strip_prefix(&['0'])` and discards the result —
dead code, not modelled.) -/
def fromStrRadix16 (s : List Char) (endian : Endian) : Except String UInt256 :=
  let s := trimChars s
  if s.length ≠ 64 then Except.error "Invalid length"
  else
    match endian with
    | .big =>
      match u128FromHex (s.drop 32), u128FromHex (s.take 32) with
      | some low, some high => Except.ok ⟨high, low, .big⟩
      | _, _ => Except.error "Invalid hex"
    | .little =>
      match u128FromHex (s.take 32), u128FromHex (s.drop 32) with
      | some low, some high => Except.ok ⟨high, low, .little⟩
      | _, _ => Except.error "Invalid hex"

end USpec

namespace USpec

/-- C1: Addition correctness.  The claim says that whenever the
mathematical sum of `a` and `b` is below `2 ^ 256`, `a + b` denotes that
sum.  The code refutes it: for `a = {high 0, low 2^128 - 1}` and
`b = {high 0, low 1}` the sum is `2 ^ 128`, yet the carry branch of
`add` returns `{high 1, low 2^128 - 1}` (it reuses `self.low` instead of
the wrapped low sum), denoting `2 ^ 129 - 1`.  The claim's particular
examples (`MAX + ZERO == MAX`, `MAX + ONE` fatal) do hold. -/
theorem C1_add_carry_bug :
    UInt256.add ⟨0, 2 ^ 128 - 1, .big⟩ ⟨0, 1, .big⟩ =
      some ⟨1, 2 ^ 128 - 1, .big⟩ ∧
    UInt256.value ⟨0, 2 ^ 128 - 1, .big⟩ + UInt256.value ⟨0, 1, .big⟩ < 2 ^ 256 ∧
    UInt256.value ⟨1, 2 ^ 128 - 1, .big⟩ ≠
      UInt256.value ⟨0, 2 ^ 128 - 1, .big⟩ + UInt256.value ⟨0, 1, .big⟩ ∧
    UInt256.add UInt256.MAX UInt256.ZERO = some UInt256.MAX ∧
    UInt256.add UInt256.MAX UInt256.ONE = none := by
  refine ⟨by decide, by decide, by decide, by decide, by decide⟩

/-- C2: Subtraction correctness.  The claim says that for `a ≥ b`,
`a - b` denotes the mathematical difference.  The code refutes it: for
`a = {high 1, low 0}` and `b = {high 0, low 1}` (so `a ≥ b`, difference
`2 ^ 128 - 1`) the borrow branch of `sub` returns `{high 0, low 0}` (it
reuses `self.low` instead of the wrapped low difference).  The
fails-iff-`a < b` half does hold on the code. -/
theorem C2_sub_borrow_bug :
    UInt256.uge ⟨1, 0, .big⟩ ⟨0, 1, .big⟩ = true ∧
    UInt256.sub ⟨1, 0, .big⟩ ⟨0, 1, .big⟩ = some ⟨0, 0, .big⟩ ∧
    UInt256.value ⟨1, 0, .big⟩ - UInt256.value ⟨0, 1, .big⟩ = 2 ^ 128 - 1 ∧
    UInt256.value ⟨0, 0, .big⟩ ≠ 2 ^ 128 - 1 ∧
    UInt256.sub UInt256.ONE UInt256.MAX = none := by
  refine ⟨by decide, by decide, by decide, by decide, by decide⟩

/-- C3: Multiplication correctness.  The claim says an in-range product
is returned exactly and an out-of-range product is signalled as a fatal
overflow.  The code refutes both: `2^128 * 2 = 2^129` (in range) yields
`2 ^ 65` because the cross partial products are realigned by 64 instead
of 128 bits, and `2^128 * 2^128 = 2^256` (out of range) silently yields
`2 ^ 128` with no overflow signal. -/
theorem C3_mul_bug :
    UInt256.mul ⟨1, 0, .big⟩ ⟨0, 2, .big⟩ = some ⟨0, 2 ^ 65, .big⟩ ∧
    UInt256.value ⟨1, 0, .big⟩ * UInt256.value ⟨0, 2, .big⟩ < 2 ^ 256 ∧
    UInt256.value ⟨0, 2 ^ 65, .big⟩ ≠
      UInt256.value ⟨1, 0, .big⟩ * UInt256.value ⟨0, 2, .big⟩ ∧
    UInt256.mul ⟨1, 0, .big⟩ ⟨1, 0, .big⟩ = some ⟨1, 0, .big⟩ ∧
    2 ^ 256 ≤ UInt256.value ⟨1, 0, .big⟩ * UInt256.value ⟨1, 0, .big⟩ := by
  refine ⟨by decide, by decide, by decide, by decide, by decide⟩

/-- C4: Division correctness.  The claim says `divide a b` (for `b ≠ 0`)
returns `q, r` with `q * b + r = a`.  The code refutes it: for
`a = 2 ^ 129` and `b = 2 ^ 128 + 1` it returns `q = 1, r = 0` (the final
restoring subtraction goes through the buggy borrow branch of `sub`),
and `1 * b + 0 ≠ a`.  Division by zero is indeed fatal, and `/` does
return the quotient of `divide`. -/
theorem C4_divide_bug :
    divide ⟨2, 0, .big⟩ ⟨1, 1, .big⟩ = some (⟨0, 1, .big⟩, ⟨0, 0, .big⟩) ∧
    UInt256.value ⟨0, 1, .big⟩ * UInt256.value ⟨1, 1, .big⟩ +
      UInt256.value ⟨0, 0, .big⟩ ≠ UInt256.value ⟨2, 0, .big⟩ ∧
    UInt256.udiv ⟨2, 0, .big⟩ ⟨1, 1, .big⟩ = some ⟨0, 1, .big⟩ ∧
    divide ⟨2, 0, .big⟩ UInt256.ZERO = none := by
  refine ⟨by decide, by decide, by decide, by decide⟩

/-- C5: Builder partial-input contract.  The claim says
`from_partial_bytes` is legal exactly when padding and endianness have
both been declared.  The code refutes both directions: with padding and
endianness declared it panics (the `!self.padding.is_none()` check is
inverted), and with endianness but no padding declared it succeeds —
padding with the hard-coded fill `0x00`, not a declared fill byte. -/
theorem C5_builder_bug :
    UInt256Builder.fromPartialBytes
      ((UInt256Builder.new.withPadding 0xff).withEndian .big) [1, 0x4a] = none ∧
    UInt256Builder.fromPartialBytes
      (UInt256Builder.new.withEndian .big) [1, 0x4a] =
      some ⟨[0, 0, 0, 0, 0, 0, 0, 0, 0, 0, 0, 0, 0, 0, 0, 0,
        0, 0, 0, 0, 0, 0, 0, 0, 0, 0, 0, 0, 0, 0, 1, 0x4a],
        some .big, none⟩ := by
  refine ⟨by decide, by decide⟩

/-- C6: Shift saturation.  The claim says shifting by at least 256
yields `ZERO`.  The code refutes it: the `shift >= 256` arm is placed
after the `shift >= 128` arm and is unreachable, so a shift amount of at
least 256 performs a native 128-bit shift by an amount of at least 128,
which is fatal, not `ZERO`. -/
theorem C6_shift_saturation_bug :
    UInt256.shr ⟨0, 1, .big⟩ 256 = none ∧
    UInt256.shl ⟨0, 1, .big⟩ 256 = none ∧
    UInt256.shr ⟨5, 7, .big⟩ 300 = none ∧
    UInt256.shl ⟨5, 7, .big⟩ 300 = none ∧
    none ≠ some UInt256.ZERO := by
  refine ⟨by decide, by decide, by decide, by decide, by decide⟩

/-- C7: Zero-shift no-op.  The claim says `x << 0 = x` and `x >> 0 = x`
without hitting any native shift-by-bit-width edge case.  The code
refutes it: the merge term uses a native 128-bit shift by `128 - shift`,
which for `shift = 0` is a shift by the full bit width — fatal. -/
theorem C7_zero_shift_bug :
    UInt256.shr ⟨1, 2, .big⟩ 0 = none ∧
    UInt256.shl ⟨1, 2, .big⟩ 0 = none ∧
    none ≠ some (⟨1, 2, .big⟩ : UInt256) := by
  refine ⟨by decide, by decide, by decide⟩

/-- C8: Recoverable hex errors.  The claim says both
`hex_to_bytes_pair` and `from_str_radix` return a descriptive error on
wrong-length or non-hex input.  The code refutes it for
`hex_to_bytes_pair`: it `unwrap`s the radix-16 parses and slices without
a length check, so 64 `z` characters or a 3-character body abort
(`none`, a panic) instead of producing the declared `Err`.
`from_str_radix` itself does return errors. -/
theorem C8_hex_panic_bug :
    hexToBytesPair ('0' :: 'x' :: List.replicate 64 'z') .big = none ∧
    hexToBytesPair ('0' :: 'x' :: List.replicate 3 'a') .big = none ∧
    hexToBytesPair ('0' :: 'x' :: List.replicate 64 'z') .little = none ∧
    fromStrRadix16 (List.replicate 3 'a') .big = Except.error "Invalid length" ∧
    fromStrRadix16 (List.replicate 64 'z') .big = Except.error "Invalid hex" := by
  refine ⟨rfl, rfl, rfl, rfl, rfl⟩

/-- Right shift distributes over bitwise or. -/
lemma lor_shiftRight_distrib (a b n : ℕ) :
    (a ||| b) >>> n = (a >>> n) ||| (b >>> n) := by
  apply Nat.eq_of_testBit_eq
  intro i
  simp [Nat.testBit_shiftRight, Nat.testBit_or]

/-- Reduction modulo 256 distributes over bitwise or. -/
lemma lor_mod256 (a b : ℕ) : (a ||| b) % 256 = (a % 256) ||| (b % 256) := by
  have h : (a ||| b) % 2 ^ 8 = (a % 2 ^ 8) ||| (b % 2 ^ 8) := by
    apply Nat.eq_of_testBit_eq
    intro i
    simp only [Nat.testBit_mod_two_pow, Nat.testBit_or]
    by_cases hi : i < 8 <;> simp [hi]
  exact h

/-- Masking with `0xff` is reduction modulo 256. -/
lemma land255_eq_mod (x : ℕ) : x &&& 255 = x % 256 :=
  Nat.and_pow_two_sub_one_eq_mod x 8

/-- Extracting exactly the byte that was placed at shift position `m`. -/
lemma byte_atom_exact (x m : ℕ) (hx : x < 256) :
    ((x <<< m) >>> m) % 256 = x := by
  rw [Nat.shiftLeft_eq, Nat.shiftRight_eq_div_pow,
    Nat.mul_div_cancel _ (Nat.two_pow_pos m), Nat.mod_eq_of_lt hx]

/-- A byte placed at least 8 bit positions above the extraction point
contributes nothing to the extracted byte. -/
lemma byte_atom_above (x m s : ℕ) (hm : s + 8 ≤ m) :
    ((x <<< m) >>> s) % 256 = 0 := by
  rw [Nat.shiftLeft_eq, Nat.shiftRight_eq_div_pow]
  rw [show m = (m - s) + s from by omega, pow_add, ← Nat.mul_assoc,
    Nat.mul_div_cancel _ (Nat.two_pow_pos s)]
  rw [show m - s = 8 + (m - s - 8) from by omega, pow_add]
  rw [show x * (2 ^ 8 * 2 ^ (m - s - 8)) = 256 * (x * 2 ^ (m - s - 8)) from by
    ring]
  exact Nat.mul_mod_right _ _

/-- A byte placed at least 8 bit positions below the extraction point
contributes nothing to the extracted byte. -/
lemma byte_atom_below (x m s : ℕ) (hx : x < 256) (hs : m + 8 ≤ s) :
    ((x <<< m) >>> s) % 256 = 0 := by
  rw [Nat.shiftLeft_eq, Nat.shiftRight_eq_div_pow]
  rw [show s = m + (s - m) from by omega, pow_add, ← Nat.div_div_eq_div_mul,
    Nat.mul_div_cancel _ (Nat.two_pow_pos m)]
  have hxx : x < 2 ^ (s - m) :=
    lt_of_lt_of_le hx (by
      calc (256 : ℕ) = 2 ^ 8 := by norm_num
      _ ≤ 2 ^ (s - m) := Nat.pow_le_pow_right (by norm_num) (by omega))
  rw [Nat.div_eq_of_lt hxx]

/-- Explicit form of `as_bytes` on a structure literal. -/
lemma asBytes_explicit (h l : ℕ) (e : Endian) :
    UInt256.asBytes ⟨h, l, e⟩ =
    [(h >>> 120) &&& 255, (h >>> 112) &&& 255, (h >>> 104) &&& 255, (h >>> 96) &&& 255, (h >>> 88) &&& 255, (h >>> 80) &&& 255, (h >>> 72) &&& 255, (h >>> 64) &&& 255, (h >>> 56) &&& 255, (h >>> 48) &&& 255, (h >>> 40) &&& 255, (h >>> 32) &&& 255, (h >>> 24) &&& 255, (h >>> 16) &&& 255, (h >>> 8) &&& 255, (h >>> 0) &&& 255, (l >>> 120) &&& 255, (l >>> 112) &&& 255, (l >>> 104) &&& 255, (l >>> 96) &&& 255, (l >>> 88) &&& 255, (l >>> 80) &&& 255, (l >>> 72) &&& 255, (l >>> 64) &&& 255, (l >>> 56) &&& 255, (l >>> 48) &&& 255, (l >>> 40) &&& 255, (l >>> 32) &&& 255, (l >>> 24) &&& 255, (l >>> 16) &&& 255, (l >>> 8) &&& 255, (l >>> 0) &&& 255] := rfl

/-- Explicit form of `to_le_bytes` on a structure literal. -/
lemma toLeBytes_explicit (h l : ℕ) (e : Endian) :
    UInt256.toLeBytes ⟨h, l, e⟩ =
    [(l >>> 0) &&& 255, (l >>> 8) &&& 255, (l >>> 16) &&& 255, (l >>> 24) &&& 255, (l >>> 32) &&& 255, (l >>> 40) &&& 255, (l >>> 48) &&& 255, (l >>> 56) &&& 255, (l >>> 64) &&& 255, (l >>> 72) &&& 255, (l >>> 80) &&& 255, (l >>> 88) &&& 255, (l >>> 96) &&& 255, (l >>> 104) &&& 255, (l >>> 112) &&& 255, (l >>> 120) &&& 255, (h >>> 0) &&& 255, (h >>> 8) &&& 255, (h >>> 16) &&& 255, (h >>> 24) &&& 255, (h >>> 32) &&& 255, (h >>> 40) &&& 255, (h >>> 48) &&& 255, (h >>> 56) &&& 255, (h >>> 64) &&& 255, (h >>> 72) &&& 255, (h >>> 80) &&& 255, (h >>> 88) &&& 255, (h >>> 96) &&& 255, (h >>> 104) &&& 255, (h >>> 112) &&& 255, (h >>> 120) &&& 255] := rfl

/-- C9: Byte round trip.  For every 32-byte sequence, converting with a
direction and serializing back with the same direction returns exactly
the input bytes: `to_be_bytes (from_be_bytes b) = b` (`as_bytes` is
`to_be_bytes`) and `to_le_bytes (from_le_bytes b) = b`; moreover the
serializers ignore the value's carried endianness tag, so the output
direction is chosen by the caller alone. -/
theorem C9_byte_round_trip (x0 x1 x2 x3 x4 x5 x6 x7 x8 x9 x10 x11 x12 x13 x14 x15 x16 x17 x18 x19 x20 x21 x22 x23 x24 x25 x26 x27 x28 x29 x30 x31 : ℕ)
    (h0 : x0 < 256)
    (h1 : x1 < 256)
    (h2 : x2 < 256)
    (h3 : x3 < 256)
    (h4 : x4 < 256)
    (h5 : x5 < 256)
    (h6 : x6 < 256)
    (h7 : x7 < 256)
    (h8 : x8 < 256)
    (h9 : x9 < 256)
    (h10 : x10 < 256)
    (h11 : x11 < 256)
    (h12 : x12 < 256)
    (h13 : x13 < 256)
    (h14 : x14 < 256)
    (h15 : x15 < 256)
    (h16 : x16 < 256)
    (h17 : x17 < 256)
    (h18 : x18 < 256)
    (h19 : x19 < 256)
    (h20 : x20 < 256)
    (h21 : x21 < 256)
    (h22 : x22 < 256)
    (h23 : x23 < 256)
    (h24 : x24 < 256)
    (h25 : x25 < 256)
    (h26 : x26 < 256)
    (h27 : x27 < 256)
    (h28 : x28 < 256)
    (h29 : x29 < 256)
    (h30 : x30 < 256)
    (h31 : x31 < 256) :
    (UInt256.fromBeBytes [x0, x1, x2, x3, x4, x5, x6, x7, x8, x9, x10, x11, x12, x13, x14, x15, x16, x17, x18, x19, x20, x21, x22, x23, x24, x25, x26, x27, x28, x29, x30, x31]).asBytes = [x0, x1, x2, x3, x4, x5, x6, x7, x8, x9, x10, x11, x12, x13, x14, x15, x16, x17, x18, x19, x20, x21, x22, x23, x24, x25, x26, x27, x28, x29, x30, x31] ∧
    (UInt256.fromLeBytes [x0, x1, x2, x3, x4, x5, x6, x7, x8, x9, x10, x11, x12, x13, x14, x15, x16, x17, x18, x19, x20, x21, x22, x23, x24, x25, x26, x27, x28, x29, x30, x31]).toLeBytes = [x0, x1, x2, x3, x4, x5, x6, x7, x8, x9, x10, x11, x12, x13, x14, x15, x16, x17, x18, x19, x20, x21, x22, x23, x24, x25, x26, x27, x28, x29, x30, x31] ∧
    (∀ (a : UInt256) (e : Endian),
      UInt256.asBytes ⟨a.high, a.low, e⟩ = UInt256.asBytes a ∧
      UInt256.toLeBytes ⟨a.high, a.low, e⟩ = UInt256.toLeBytes a) := by
  refine ⟨?_, ?_, fun a e => ⟨rfl, rfl⟩⟩
  · have hbe : UInt256.fromBeBytes [x0, x1, x2, x3, x4, x5, x6, x7, x8, x9, x10, x11, x12, x13, x14, x15, x16, x17, x18, x19, x20, x21, x22, x23, x24, x25, x26, x27, x28, x29, x30, x31] =
        ⟨0 ||| x15 <<< 0 ||| x14 <<< 8 ||| x13 <<< 16 ||| x12 <<< 24 ||| x11 <<< 32 ||| x10 <<< 40 ||| x9 <<< 48 ||| x8 <<< 56 ||| x7 <<< 64 ||| x6 <<< 72 ||| x5 <<< 80 ||| x4 <<< 88 ||| x3 <<< 96 ||| x2 <<< 104 ||| x1 <<< 112 ||| x0 <<< 120,
         0 ||| x31 <<< 0 ||| x30 <<< 8 ||| x29 <<< 16 ||| x28 <<< 24 ||| x27 <<< 32 ||| x26 <<< 40 ||| x25 <<< 48 ||| x24 <<< 56 ||| x23 <<< 64 ||| x22 <<< 72 ||| x21 <<< 80 ||| x20 <<< 88 ||| x19 <<< 96 ||| x18 <<< 104 ||| x17 <<< 112 ||| x16 <<< 120, .big⟩ := rfl
    rw [hbe, asBytes_explicit]
    simp (disch := omega) only [land255_eq_mod, lor_shiftRight_distrib,
      lor_mod256, byte_atom_exact, byte_atom_above, byte_atom_below,
      Nat.zero_shiftRight, Nat.zero_mod, Nat.zero_or, Nat.or_zero]
  · have hle : UInt256.fromLeBytes [x0, x1, x2, x3, x4, x5, x6, x7, x8, x9, x10, x11, x12, x13, x14, x15, x16, x17, x18, x19, x20, x21, x22, x23, x24, x25, x26, x27, x28, x29, x30, x31] =
        ⟨0 ||| x16 <<< 0 ||| x17 <<< 8 ||| x18 <<< 16 ||| x19 <<< 24 ||| x20 <<< 32 ||| x21 <<< 40 ||| x22 <<< 48 ||| x23 <<< 56 ||| x24 <<< 64 ||| x25 <<< 72 ||| x26 <<< 80 ||| x27 <<< 88 ||| x28 <<< 96 ||| x29 <<< 104 ||| x30 <<< 112 ||| x31 <<< 120,
         0 ||| x0 <<< 0 ||| x1 <<< 8 ||| x2 <<< 16 ||| x3 <<< 24 ||| x4 <<< 32 ||| x5 <<< 40 ||| x6 <<< 48 ||| x7 <<< 56 ||| x8 <<< 64 ||| x9 <<< 72 ||| x10 <<< 80 ||| x11 <<< 88 ||| x12 <<< 96 ||| x13 <<< 104 ||| x14 <<< 112 ||| x15 <<< 120, .little⟩ := rfl
    rw [hle, toLeBytes_explicit]
    simp (disch := omega) only [land255_eq_mod, lor_shiftRight_distrib,
      lor_mod256, byte_atom_exact, byte_atom_above, byte_atom_below,
      Nat.zero_shiftRight, Nat.zero_mod, Nat.zero_or, Nat.or_zero]

/-- Witness for C9: the round-trip theorem applied at the concrete byte
sequence `0, 1, ..., 31`. -/
theorem C9_byte_round_trip_witness :
    (UInt256.fromBeBytes [0, 1, 2, 3, 4, 5, 6, 7, 8, 9, 10, 11, 12, 13, 14, 15, 16, 17, 18, 19, 20, 21, 22, 23, 24, 25, 26, 27, 28, 29, 30, 31]).asBytes = [0, 1, 2, 3, 4, 5, 6, 7, 8, 9, 10, 11, 12, 13, 14, 15, 16, 17, 18, 19, 20, 21, 22, 23, 24, 25, 26, 27, 28, 29, 30, 31] ∧
    (UInt256.fromLeBytes [0, 1, 2, 3, 4, 5, 6, 7, 8, 9, 10, 11, 12, 13, 14, 15, 16, 17, 18, 19, 20, 21, 22, 23, 24, 25, 26, 27, 28, 29, 30, 31]).toLeBytes = [0, 1, 2, 3, 4, 5, 6, 7, 8, 9, 10, 11, 12, 13, 14, 15, 16, 17, 18, 19, 20, 21, 22, 23, 24, 25, 26, 27, 28, 29, 30, 31] ∧
    (∀ (a : UInt256) (e : Endian),
      UInt256.asBytes ⟨a.high, a.low, e⟩ = UInt256.asBytes a ∧
      UInt256.toLeBytes ⟨a.high, a.low, e⟩ = UInt256.toLeBytes a) :=
  C9_byte_round_trip 0 1 2 3 4 5 6 7 8 9 10 11 12 13 14 15 16 17 18 19 20 21 22 23 24 25 26 27 28 29 30 31 (by decide) (by decide) (by decide) (by decide) (by decide) (by decide) (by decide) (by decide) (by decide) (by decide) (by decide) (by decide) (by decide) (by decide) (by decide) (by decide) (by decide) (by decide) (by decide) (by decide) (by decide) (by decide) (by decide) (by decide) (by decide) (by decide) (by decide) (by decide) (by decide) (by decide) (by decide) (by decide)

/-- C10: Result endian tag.  Whenever `a + b`, `a - b`, `a * b`,
`a | b`, `a << s` or `a >> s` returns a value, that value carries the
endianness tag of the left operand `a`, and the right operand's tag
never influences the result of the binary operations. -/
theorem C10_result_endian_tag (a b : UInt256) (s : ℕ) (r : UInt256) :
    (UInt256.add a b = some r → r.endian = a.endian) ∧
    (UInt256.sub a b = some r → r.endian = a.endian) ∧
    (UInt256.mul a b = some r → r.endian = a.endian) ∧
    (UInt256.bitor a b).endian = a.endian ∧
    (UInt256.shl a s = some r → r.endian = a.endian) ∧
    (UInt256.shr a s = some r → r.endian = a.endian) ∧
    (∀ e : Endian,
      UInt256.add a ⟨b.high, b.low, e⟩ = UInt256.add a b ∧
      UInt256.sub a ⟨b.high, b.low, e⟩ = UInt256.sub a b ∧
      UInt256.mul a ⟨b.high, b.low, e⟩ = UInt256.mul a b ∧
      UInt256.bitor a ⟨b.high, b.low, e⟩ = UInt256.bitor a b) := by
  refine ⟨?_, ?_, ?_, rfl, ?_, ?_, fun e => ⟨rfl, rfl, rfl, rfl⟩⟩
  · intro h
    simp only [UInt256.add] at h
    split at h
    · split at h
      · exact Option.noConfusion h
      · split at h
        · exact Option.noConfusion h
        · obtain rfl := Option.some.inj h
          rfl
    · obtain rfl := Option.some.inj h
      rfl
  · intro h
    simp only [UInt256.sub] at h
    split at h
    · exact Option.noConfusion h
    · split at h
      · split at h
        · exact Option.noConfusion h
        · obtain rfl := Option.some.inj h
          rfl
      · obtain rfl := Option.some.inj h
        rfl
  · intro h
    simp only [UInt256.mul, Option.bind_eq_bind', Option.bind_eq_some] at h
    obtain ⟨v1, -, v2, -, v3, -, v4, -, v5, -, v6, -, v7, -, v8, -, hfin⟩ := h
    obtain rfl := Option.some.inj hfin
    rfl
  · intro h
    simp only [UInt256.shl] at h
    split at h
    · rw [Option.map_eq_some'] at h
      obtain ⟨x, -, rfl⟩ := h
      rfl
    · split at h
      · omega
      · simp only [Option.bind_eq_bind', Option.bind_eq_some] at h
        obtain ⟨x, -, y, -, l, -, hfin⟩ := h
        obtain rfl := Option.some.inj hfin
        rfl
  · intro h
    simp only [UInt256.shr] at h
    split at h
    · rw [Option.map_eq_some'] at h
      obtain ⟨x, -, rfl⟩ := h
      rfl
    · split at h
      · omega
      · simp only [Option.bind_eq_bind', Option.bind_eq_some] at h
        obtain ⟨x, -, y, -, l, -, hfin⟩ := h
        obtain rfl := Option.some.inj hfin
        rfl

/-- Witness for C10: the endian-tag theorem applied at concrete inputs
whose operations succeed. -/
theorem C10_result_endian_tag_witness :
    (UInt256.add ⟨5, 6, .little⟩ ⟨1, 2, .big⟩ = some ⟨5, 8, .little⟩) ∧
    (⟨5, 8, .little⟩ : UInt256).endian = (⟨5, 6, .little⟩ : UInt256).endian ∧
    (UInt256.shl ⟨5, 6, .little⟩ 1 = some ⟨10, 12, .little⟩) ∧
    (⟨10, 12, .little⟩ : UInt256).endian = (⟨5, 6, .little⟩ : UInt256).endian :=
  ⟨by decide,
    (C10_result_endian_tag ⟨5, 6, .little⟩ ⟨1, 2, .big⟩ 1 ⟨5, 8, .little⟩).1
      (by decide),
    by decide,
    (C10_result_endian_tag ⟨5, 6, .little⟩ ⟨1, 2, .big⟩ 1
      ⟨10, 12, .little⟩).2.2.2.2.1 (by decide)⟩

end USpec
